import Mathlib

/-!
# Price comparator chat front end

A shallow embedding of `src/App.js`: the two-question intake flow
(`parseResponse`, `handleSendMessage`), the persisted flow state (the
`useState` initializer and `JSON.stringify` / `JSON.parse`), the remote
query client (`fetchData`) and the timed reveal of results
(`sendProductsSequentially`, `sendProductMessage`, `formatPrice`).

Modelling conventions.

* A JavaScript string is the list of its UTF-16 code units (`JSString`).
* React state is an explicit record (`AppState`); one event handler run, one
  timer callback and one effect run are each a function on that record.
* Built-ins whose result depends on Unicode tables or on binary floating
  point (`String.prototype.toLowerCase`, `parseFloat`,
  `Intl.NumberFormat`) are fields of a `Host`, over which every definition
  is parametric.  `refHost` is a concrete host used to evaluate examples.
* `JSON.parse` is a concrete recursive-descent parser of the JSON grammar.
  A number is the exact rational its literal denotes.
* The flow state and the products are typed records: `step` is a natural
  number, `type` and `model` are a string or null, and the parsed response
  body is a list of product records.
* `handleSendMessage` is one completed run of the handler; what another event
  would see while the handler awaits the network is not modelled.
-/

namespace PriceComparator

/-! ## Strings -/

/-- A JavaScript string: the sequence of its UTF-16 code units. -/
abbrev JSString := List Nat

/-- The UTF-16 encoding of one Unicode scalar value. -/
def utf16 (c : Char) : List Nat :=
  if c.toNat < 65536 then [c.toNat]
  else [55296 + (c.toNat - 65536) / 1024, 56320 + (c.toNat - 65536) % 1024]

/-- The JavaScript string denoted by a literal. -/
def js (s : String) : JSString :=
  (s.data.map utf16).flatten

/-! ## Numbers and the host environment -/

/-- A JavaScript number, as far as this program observes one. -/
inductive JSNumber where
  | nan
  | infinity (negative : Bool)
  | finite (q : ℚ)
  deriving DecidableEq

/-- The global `isNaN` on a number. -/
def isNaN : JSNumber → Bool
  | .nan => true
  | _ => false

/-- The `price` of a product: `string | number`. -/
inductive Price where
  | str (s : JSString)
  | num (q : ℚ)
  deriving DecidableEq

/-- The built-ins the program calls whose results depend on Unicode tables or
on floating point: `String.prototype.toLowerCase`, `parseFloat`, and
`new Intl.NumberFormat('en-US', { style: 'currency', currency: 'USD' }).format`. -/
structure Host where
  toLowerCase : JSString → JSString
  parseFloat : Price → JSNumber
  formatUSD : JSNumber → JSString

/-! ## Data model -/

/-- The wizard state `{ step, type, model }`.  `falseKey` is the own property
named `"false"`, which the computed key of `handleSendMessage` writes when
`step` is neither 0 nor 1; `none` means the property is absent. -/
structure FlowState where
  step : Nat
  type : Option JSString
  model : Option JSString
  falseKey : Option (Option JSString) := none
  deriving DecidableEq

/-- The object literal `{ step: 0, type: null, model: null }`. -/
def defaultFlowState : FlowState :=
  { step := 0, type := none, model := none, falseKey := none }

/-- What a message displays: a plain string, or the JSX fragment built by
`sendProductMessage` from a product name, a formatted price and a link. -/
inductive MessageText where
  | plain (s : JSString)
  | product (name : JSString) (formattedPrice : JSString) (link : JSString)
  deriving DecidableEq

/-- A transcript entry `{ text, isUser }`. -/
structure Message where
  text : MessageText
  isUser : Bool
  deriving DecidableEq

/-- A product record `{ name, price, link }`. -/
structure Product where
  name : JSString
  price : Price
  link : JSString
  deriving DecidableEq

/-- A pending `setTimeout` callback of `sendProductMessage`: the closure holds
the message already built, the product array and the index just shown. -/
structure Timer where
  botMessage : Message
  products : List Product
  index : Nat
  deriving DecidableEq

/-- The component state together with the parts of the browser it touches:
the `flowState` entry of `localStorage`, the pending timers (all with the same
delay, so first in, first out) and the console. -/
structure AppState where
  messages : List Message
  input : JSString
  flowState : FlowState
  storage : Option JSString
  timers : List Timer
  console : List JSString

/-- The body sent to the scrape endpoint. -/
structure Request where
  storeName : JSString
  query : JSString

/-- What the network does with one request: `fetch` rejects, or it resolves
and `response.json()` either rejects (`none`) or yields the parsed body.  The
body is read at the type the program uses it at, an array of product records;
the program does not validate it, and a body of another shape is outside this
model. -/
inductive FetchReply where
  | rejected
  | resolved (json : Option (List Product))

/-- The remote scraping service. -/
abbrev Network := Request → FetchReply

/-! ## The flow -/

/-- The two prompts. -/
def flowQuestions : List JSString :=
  [ js "¿Qué tipo de producto estás buscando? (por ejemplo, laptop, teléfono, tableta)",
    js "¿Tienes un modelo específico en mente? (Si no, responde \"no\")" ]

/-- Source `parseResponse`, App.js lines 102-113. -/
def parseResponse (h : Host) (step : Nat) (response : JSString) : Option JSString :=
  if h.toLowerCase response = js "none" ∨ h.toLowerCase response = js "no" then none
  else
    match step with
    | 0 => some (h.toLowerCase response)
    | 1 => some response
    | _ => none

/-- The reference definition of the response parser, following the
specification text: a case-insensitive match against "no" / "none" yields
null; otherwise step 0 lower-cases, step 1 passes the text through, and any
other step yields null. -/
def parseSpec (h : Host) (step : Nat) (rawText : JSString) : Option JSString :=
  if h.toLowerCase rawText ∈ [js "no", js "none"] then none
  else if step = 0 then some (h.toLowerCase rawText)
  else if step = 1 then some rawText
  else none

/-- The expression `[a, b].filter(Boolean)` on values that are a string or
null: null and the empty string are falsy. -/
def filterBoolean : List (Option JSString) → List JSString
  | [] => []
  | none :: rest => filterBoolean rest
  | some s :: rest => if s = [] then filterBoolean rest else s :: filterBoolean rest

/-- The method `Array.prototype.join` on strings. -/
def join (sep : JSString) : List JSString → JSString
  | [] => []
  | [x] => x
  | x :: y :: rest => x ++ sep ++ join sep (y :: rest)

/-- The synthetic record `fetchData` returns on failure. -/
def errorProduct : Product :=
  { name := js "Error", price := .str (js "N/A"), link := js "" }

/-- Source `fetchData`, App.js lines 157-171: logs the query, posts it, and
returns the parsed body, or the error record when `fetch` or
`response.json()` rejects.  The result is the list returned and the console
after the call. -/
def fetchData (net : Network) (query : JSString) (console : List JSString) :
    List Product × List JSString :=
  let console1 := console ++ [query]
  match net { storeName := js "soriana", query := query } with
  | .rejected => ([errorProduct], console1)
  | .resolved none => ([errorProduct], console1)
  | .resolved (some body) => (body, console1)

/-- Source `formatPrice`, App.js lines 183-191. -/
def formatPrice (h : Host) (price : Price) : JSString :=
  let parsedPrice := h.parseFloat price
  if isNaN parsedPrice then js "N/A"
  else h.formatUSD parsedPrice

/-- The bot message `sendProductMessage` builds for one product. -/
def productMessage (h : Host) (product : Product) : Message :=
  { text := .product product.name (formatPrice h product.price) product.link,
    isUser := false }

/-- Source `sendProductMessage`, App.js lines 193-216: nothing when the index
is past the end, otherwise the timer it schedules. -/
def sendProductMessage (h : Host) (products : List Product) (index : Nat) : Option Timer :=
  if hlt : index < products.length then
    some { botMessage := productMessage h products[index], products := products, index := index }
  else none

/-- The text of the no-results notice. -/
def noProductsMessage : Message :=
  { text := .plain (js "No products found for your query."), isUser := false }

/-- Source `sendProductsSequentially`, App.js lines 173-219. -/
def sendProductsSequentially (h : Host) (products : List Product) (st : AppState) : AppState :=
  if products.length = 0 then
    { st with messages := st.messages ++ [noProductsMessage], storage := none }
  else
    match sendProductMessage h products 0 with
    | some t => { st with timers := st.timers ++ [t] }
    | none => st

/-- The effect of App.js lines 221-226, which React runs after a render in
which `flowState.step` changed (and once after mounting). -/
def useEffect (st : AppState) : AppState :=
  if hlt : st.flowState.step < flowQuestions.length then
    { st with messages := [{ text := .plain flowQuestions[st.flowState.step], isUser := false }] }
  else st

/-- The `onChange` handler of the input field. -/
def setInput (value : JSString) (st : AppState) : AppState :=
  { st with input := value }

/-! ## JSON -/

/-- A JavaScript value as `JSON.parse` can return one.  The members of an
object are kept in insertion order. -/
inductive JVal where
  | null
  | bool (b : Bool)
  | num (q : ℚ)
  | str (s : JSString)
  | arr (items : List JVal)
  | obj (members : List (JSString × JVal))

namespace JSON

/-- JSON whitespace: space, tab, line feed, carriage return. -/
def isWs (c : Nat) : Bool :=
  c = 32 || c = 9 || c = 10 || c = 13

/-- Drops leading whitespace. -/
def skipWs : List Nat → List Nat
  | [] => []
  | c :: cs => if isWs c then skipWs cs else c :: cs

/-- The value of a hexadecimal digit, either case. -/
def hexVal (c : Nat) : Option Nat :=
  if 48 ≤ c ∧ c ≤ 57 then some (c - 48)
  else if 97 ≤ c ∧ c ≤ 102 then some (c - 87)
  else if 65 ≤ c ∧ c ≤ 70 then some (c - 55)
  else none

/-- The code unit denoted by the four hexadecimal digits of a `\u` escape. -/
def hex4 (a b c d : Nat) : Option Nat :=
  match hexVal a, hexVal b, hexVal c, hexVal d with
  | some x, some y, some z, some w => some (4096 * x + 256 * y + 16 * z + w)
  | _, _, _, _ => none

/-- The code unit denoted by a single-character escape. -/
def unescape (e : Nat) : Option Nat :=
  if e = 34 then some 34
  else if e = 92 then some 92
  else if e = 47 then some 47
  else if e = 98 then some 8
  else if e = 102 then some 12
  else if e = 110 then some 10
  else if e = 114 then some 13
  else if e = 116 then some 9
  else none

/-- Reads the characters of a string literal after its opening quote, up to
and including the closing quote. -/
def parseChars : List Nat → Option (JSString × List Nat)
  | [] => none
  | c :: rest =>
    if c = 34 then some ([], rest)
    else if c = 92 then
      match rest with
      | [] => none
      | e :: rest1 =>
        if e = 117 then
          match rest1 with
          | a :: b :: c :: d :: rest2 =>
            match hex4 a b c d, parseChars rest2 with
            | some u, some (s, r) => some (u :: s, r)
            | _, _ => none
          | _ => none
        else
          match unescape e, parseChars rest1 with
          | some u, some (s, r) => some (u :: s, r)
          | _, _ => none
    else if c < 32 then none
    else
      match parseChars rest with
      | some (s, r) => some (c :: s, r)
      | none => none

/-- A decimal digit. -/
def isDigit (c : Nat) : Bool :=
  decide (48 ≤ c) && decide (c ≤ 57)

/-- The number written by a run of decimal digits. -/
def digitsValue (ds : List Nat) : Nat :=
  ds.foldl (fun acc d => 10 * acc + (d - 48)) 0

/-- The optional fraction part of a number: its digits and the rest. -/
def parseFraction (input : List Nat) : Option (List Nat × List Nat) :=
  match input with
  | [] => some ([], input)
  | c :: rest =>
    if c = 46 then
      if rest.takeWhile isDigit = [] then none
      else some (rest.takeWhile isDigit, rest.dropWhile isDigit)
    else some ([], input)

/-- The optional exponent part of a number: its value and the rest. -/
def parseExponent (input : List Nat) : Option (Int × List Nat) :=
  match input with
  | [] => some (0, input)
  | c :: rest =>
    if c = 101 ∨ c = 69 then
      match rest with
      | [] => none
      | s :: rest1 =>
        if s = 45 then
          if rest1.takeWhile isDigit = [] then none
          else some (-(digitsValue (rest1.takeWhile isDigit) : Int), rest1.dropWhile isDigit)
        else if s = 43 then
          if rest1.takeWhile isDigit = [] then none
          else some ((digitsValue (rest1.takeWhile isDigit) : Int), rest1.dropWhile isDigit)
        else
          if rest.takeWhile isDigit = [] then none
          else some ((digitsValue (rest.takeWhile isDigit) : Int), rest.dropWhile isDigit)
    else some (0, input)

/-- The rational denoted by a number literal with the given sign, integer
digits, fraction digits and exponent. -/
def numberValue (negative : Bool) (ip fp : List Nat) (e : Int) : ℚ :=
  if negative then -((digitsValue (ip ++ fp) : ℚ) * 10 ^ (e - fp.length))
  else (digitsValue (ip ++ fp) : ℚ) * 10 ^ (e - fp.length)

/-- Reads the digits, fraction and exponent of a number literal, its sign
already read. -/
def parseUnsigned (negative : Bool) (input : List Nat) : Option (ℚ × List Nat) :=
  if input.takeWhile isDigit = [] then none
  else if 1 < (input.takeWhile isDigit).length ∧ input.head? = some 48 then none
  else
    match parseFraction (input.dropWhile isDigit) with
    | none => none
    | some (fp, rest1) =>
      match parseExponent rest1 with
      | none => none
      | some (e, rest2) => some (numberValue negative (input.takeWhile isDigit) fp e, rest2)

/-- Reads a number literal. -/
def parseNumber (input : List Nat) : Option (ℚ × List Nat) :=
  match input with
  | [] => none
  | c :: rest => if c = 45 then parseUnsigned true rest else parseUnsigned false input

/-- Reads the rest of a keyword. -/
def dropLiteral : List Nat → List Nat → Option (List Nat)
  | [], input => some input
  | _ :: _, [] => none
  | c :: cs, d :: ds => if c = d then dropLiteral cs ds else none

/-- Adds a member in front of the members that follow it in the text; a later
member with the same key overrides the value and keeps the first position. -/
def addMember (k : JSString) (v : JVal) (later : List (JSString × JVal)) :
    List (JSString × JVal) :=
  match later.find? (fun m => decide (m.1 = k)) with
  | some m => (k, m.2) :: later.filter (fun m => !decide (m.1 = k))
  | none => (k, v) :: later

mutual
/-- Reads one JSON value.  The first argument bounds the recursion. -/
def parseValue : Nat → List Nat → Option (JVal × List Nat)
  | 0, _ => none
  | fuel + 1, input =>
    match skipWs input with
    | [] => none
    | c :: rest =>
      if c = 110 then
        match dropLiteral (js "ull") rest with
        | some r => some (.null, r)
        | none => none
      else if c = 116 then
        match dropLiteral (js "rue") rest with
        | some r => some (.bool true, r)
        | none => none
      else if c = 102 then
        match dropLiteral (js "alse") rest with
        | some r => some (.bool false, r)
        | none => none
      else if c = 34 then
        match parseChars rest with
        | some (s, r) => some (.str s, r)
        | none => none
      else if c = 91 then
        match skipWs rest with
        | [] => none
        | d :: r =>
          if d = 93 then some (.arr [], r)
          else
            match parseElements fuel rest with
            | some (vs, r1) => some (.arr vs, r1)
            | none => none
      else if c = 123 then
        match skipWs rest with
        | [] => none
        | d :: r =>
          if d = 125 then some (.obj [], r)
          else
            match parseMembers fuel rest with
            | some (ms, r1) => some (.obj ms, r1)
            | none => none
      else
        match parseNumber (c :: rest) with
        | some (q, r) => some (.num q, r)
        | none => none
/-- Reads the elements of a non-empty array, up to and including `]`. -/
def parseElements : Nat → List Nat → Option (List JVal × List Nat)
  | 0, _ => none
  | fuel + 1, input =>
    match parseValue fuel input with
    | none => none
    | some (v, r) =>
      match skipWs r with
      | [] => none
      | c :: r1 =>
        if c = 44 then
          match parseElements fuel r1 with
          | some (vs, r2) => some (v :: vs, r2)
          | none => none
        else if c = 93 then some ([v], r1)
        else none
/-- Reads the members of a non-empty object, up to and including `}`. -/
def parseMembers : Nat → List Nat → Option (List (JSString × JVal) × List Nat)
  | 0, _ => none
  | fuel + 1, input =>
    match skipWs input with
    | [] => none
    | q :: r =>
      if q = 34 then
        match parseChars r with
        | none => none
        | some (k, r1) =>
          match skipWs r1 with
          | [] => none
          | colon :: r2 =>
            if colon = 58 then
              match parseValue fuel r2 with
              | none => none
              | some (v, r3) =>
                match skipWs r3 with
                | [] => none
                | c :: r4 =>
                  if c = 44 then
                    match parseMembers fuel r4 with
                    | some (ms, r5) => some (addMember k v ms, r5)
                    | none => none
                  else if c = 125 then some ([(k, v)], r4)
                  else none
            else none
      else none
end

/-- The built-in `JSON.parse`: `none` stands for the `SyntaxError` it throws.
Every call of the recursion consumes input at least every second step, so
twice the length of the text bounds its depth (`JSON.parseValue_of_fuel`). -/
def parse (text : JSString) : Option JVal :=
  match parseValue (2 * text.length + 2) text with
  | some (v, rest) => if skipWs rest = [] then some v else none
  | none => none

/-- A lower-case hexadecimal digit. -/
def hexDigit (n : Nat) : Nat :=
  if n < 10 then 48 + n else 87 + n

/-- The escape `\uXXXX` of a code unit. -/
def unicodeEscape (c : Nat) : List Nat :=
  [92, 117, hexDigit (c / 4096 % 16), hexDigit (c / 256 % 16), hexDigit (c / 16 % 16),
    hexDigit (c % 16)]

/-- A leading surrogate. -/
def isHigh (c : Nat) : Bool :=
  decide (55296 ≤ c) && decide (c ≤ 56319)

/-- A trailing surrogate. -/
def isLow (c : Nat) : Bool :=
  decide (56320 ≤ c) && decide (c ≤ 57343)

/-- The characters of `QuoteJSONString` between the quotes: the two-character
escapes, `\uXXXX` for the other control characters and for unpaired
surrogates, and every other code point as it is. -/
def quoteChars : List Nat → List Nat
  | [] => []
  | c :: rest =>
    if c = 8 then 92 :: 98 :: quoteChars rest
    else if c = 9 then 92 :: 116 :: quoteChars rest
    else if c = 10 then 92 :: 110 :: quoteChars rest
    else if c = 12 then 92 :: 102 :: quoteChars rest
    else if c = 13 then 92 :: 114 :: quoteChars rest
    else if c = 34 then 92 :: 34 :: quoteChars rest
    else if c = 92 then 92 :: 92 :: quoteChars rest
    else if c < 32 then unicodeEscape c ++ quoteChars rest
    else if isHigh c then
      match rest with
      | [] => unicodeEscape c
      | d :: rest1 =>
        if isLow d then c :: d :: quoteChars rest1
        else unicodeEscape c ++ quoteChars (d :: rest1)
    else if isLow c then unicodeEscape c ++ quoteChars rest
    else c :: quoteChars rest

/-- The string literal `QuoteJSONString` writes for a string. -/
def quote (s : JSString) : List Nat :=
  34 :: (quoteChars s ++ [34])

/-- The decimal digits of a natural number, most significant first; the first
argument bounds the recursion. -/
def decimalAux : Nat → Nat → List Nat
  | 0, n => [48 + n % 10]
  | fuel + 1, n => if n < 10 then [48 + n] else decimalAux fuel (n / 10) ++ [48 + n % 10]

/-- The text `Number::toString` writes for a natural number below 10^21. -/
def decimal (n : Nat) : List Nat :=
  decimalAux n n

/-- The text written for a value that is a string or null. -/
def nullable : Option JSString → List Nat
  | none => js "null"
  | some s => quote s

/-- The built-in `JSON.stringify` at the type of flow states: the own
properties in order, without whitespace. -/
def stringify (fs : FlowState) : JSString :=
  [123] ++ quote (js "step") ++ [58] ++ decimal fs.step ++ [44]
    ++ quote (js "type") ++ [58] ++ nullable fs.type ++ [44]
    ++ quote (js "model") ++ [58] ++ nullable fs.model
    ++ (match fs.falseKey with
        | none => []
        | some v => [44] ++ quote (js "false") ++ [58] ++ nullable v)
    ++ [125]

end JSON

/-- A string-or-null property value as a JavaScript value. -/
def JVal.ofNullable : Option JSString → JVal
  | none => .null
  | some s => .str s

/-- The JavaScript object a flow state is. -/
def FlowState.toJVal (fs : FlowState) : JVal :=
  .obj ([(js "step", .num (fs.step : ℚ)), (js "type", JVal.ofNullable fs.type),
      (js "model", JVal.ofNullable fs.model)]
    ++ (match fs.falseKey with
        | none => []
        | some v => [(js "false", JVal.ofNullable v)]))

/-- An exception thrown by the program. -/
inductive JSError where
  | syntaxError
  | typeError
  deriving DecidableEq

/-- The initializer of the `flowState` state, App.js lines 92-95, applied to
the result of `localStorage.getItem('flowState')`: a missing entry (`null`)
and the empty string are falsy; anything else goes to `JSON.parse`. -/
def initialFlowState (savedState : Option JSString) : Except JSError JVal :=
  match savedState with
  | none => .ok defaultFlowState.toJVal
  | some text =>
    if text = [] then .ok defaultFlowState.toJVal
    else
      match JSON.parse text with
      | some v => .ok v
      | none => .error .syntaxError

/-- Source `handleSendMessage`, App.js lines 115-155: one completed run of the
handler, the awaited `fetchData` included. -/
def handleSendMessage (h : Host) (net : Network) (st : AppState) : AppState :=
  if st.input = [] then st
  else
    let userMessage : Message := { text := .plain st.input, isUser := true }
    let st1 := { st with messages := st.messages ++ [userMessage] }
    let currentStep := st.flowState.step
    let parsedValue := parseResponse h currentStep st.input
    let updatedFlowState : FlowState :=
      if currentStep = 0 then
        { st.flowState with type := parsedValue, step := currentStep + 1 }
      else if currentStep = 1 then
        { st.flowState with model := parsedValue, step := currentStep + 1 }
      else
        { st.flowState with falseKey := some parsedValue, step := currentStep + 1 }
    let st2 := { st1 with flowState := updatedFlowState,
                          storage := some (JSON.stringify updatedFlowState) }
    if hlt : updatedFlowState.step < flowQuestions.length then
      let nextQuestion := flowQuestions[updatedFlowState.step]
      let botMessage : Message := { text := .plain nextQuestion, isUser := false }
      let st3 := { st2 with messages := st2.messages ++ [botMessage] }
      { st3 with input := [] }
    else
      let query := join (js " ") (filterBoolean [updatedFlowState.type, updatedFlowState.model])
      let notice : Message := { text := .plain (js "Searching for products..."), isUser := false }
      let st3 := { st2 with messages := st2.messages ++ [notice] }
      let fetched := fetchData net query st3.console
      let st4 := sendProductsSequentially h fetched.1 { st3 with console := fetched.2 }
      let st5 := { st4 with flowState := defaultFlowState, storage := none }
      { st5 with input := [] }

/-- A freshly mounted component in a browser without a stored entry. -/
def initialState : AppState :=
  { messages := [], input := [], flowState := defaultFlowState, storage := none,
    timers := [], console := [] }

namespace Ref

/-- ASCII lower-casing of one code unit. -/
def lowerUnit (c : Nat) : Nat :=
  if 65 ≤ c ∧ c ≤ 90 then c + 32 else c

/-- Lower-casing on the ASCII range; other code units are kept. -/
def toLowerCase (s : JSString) : JSString :=
  s.map lowerUnit

/-- White space and line terminators. -/
def isSpace (c : Nat) : Bool :=
  c = 9 || c = 10 || c = 11 || c = 12 || c = 13 || c = 32 || c = 160 || c = 5760
    || (decide (8192 ≤ c) && decide (c ≤ 8202)) || c = 8232 || c = 8233 || c = 8239
    || c = 8287 || c = 12288 || c = 65279

/-- The exponent part read by `parseFloat`, zero when there is none. -/
def exponent (input : List Nat) : Int :=
  match input with
  | [] => 0
  | c :: rest =>
    if c = 101 ∨ c = 69 then
      match rest with
      | [] => 0
      | s :: rest1 =>
        if s = 45 then -(JSON.digitsValue (rest1.takeWhile JSON.isDigit) : Int)
        else if s = 43 then (JSON.digitsValue (rest1.takeWhile JSON.isDigit) : Int)
        else (JSON.digitsValue (rest.takeWhile JSON.isDigit) : Int)
    else 0

/-- The exact value of `m` times ten to the power `e`. -/
def scale (m : Nat) (e : Int) : ℚ :=
  match e with
  | Int.ofNat k => mkRat (m * 10 ^ k) 1
  | Int.negSucc k => mkRat m (10 ^ (k + 1))

/-- The value of the longest prefix that is an unsigned decimal literal, or
`Infinity`; `NaN` when there is none. -/
def parseUnsignedFloat (input : List Nat) : JSNumber :=
  let ip := input.takeWhile JSON.isDigit
  let rest := input.dropWhile JSON.isDigit
  match rest with
  | [] => if ip = [] then .nan else .finite (scale (JSON.digitsValue ip) 0)
  | c :: rest1 =>
    if c = 46 then
      let fp := rest1.takeWhile JSON.isDigit
      if ip = [] ∧ fp = [] then .nan
      else .finite (scale (JSON.digitsValue (ip ++ fp))
        (exponent (rest1.dropWhile JSON.isDigit) - fp.length))
    else if ip = [] then
      (match JSON.dropLiteral (js "Infinity") rest with
        | some _ => .infinity false
        | none => .nan)
    else .finite (scale (JSON.digitsValue ip) (exponent rest))

/-- Unary minus. -/
def negate : JSNumber → JSNumber
  | .nan => .nan
  | .infinity b => .infinity (!b)
  | .finite q => .finite (-q)

/-- The built-in `parseFloat` on a string. -/
def parseFloatString (s : JSString) : JSNumber :=
  match s.dropWhile isSpace with
  | [] => .nan
  | c :: rest =>
    if c = 45 then negate (parseUnsignedFloat rest)
    else if c = 43 then parseUnsignedFloat rest
    else parseUnsignedFloat (c :: rest)

/-- The built-in `parseFloat` on a price. -/
def parseFloat : Price → JSNumber
  | .str s => parseFloatString s
  | .num q => .finite q

/-- Inserts a comma after every third digit of a reversed digit string. -/
def groupReversed : List Nat → List Nat
  | a :: b :: c :: d :: rest => a :: b :: c :: 44 :: groupReversed (d :: rest)
  | ds => ds

/-- The `en-US` text of a number of cents. -/
def formatCents (negative : Bool) (cents : Nat) : JSString :=
  (if negative then [45] else []) ++ [36]
    ++ (groupReversed (JSON.decimal (cents / 100)).reverse).reverse ++ [46]
    ++ [48 + cents % 100 / 10, 48 + cents % 10]

/-- The `en-US` currency rendering in US dollars. -/
def formatUSD : JSNumber → JSString
  | .nan => js "$NaN"
  | .infinity negative => if negative then js "-$∞" else js "$∞"
  | .finite q =>
    formatCents (decide (q.num < 0)) ((2 * 100 * q.num.natAbs + q.den) / (2 * q.den))

end Ref

/-- The reference host. -/
def refHost : Host :=
  { toLowerCase := Ref.toLowerCase, parseFloat := Ref.parseFloat, formatUSD := Ref.formatUSD }

/-! # Theorems -/

/-! ## The JSON model: writing then reading -/

namespace JSON

/-- Reading a hexadecimal digit that was written gives its value back. -/
theorem hexVal_hexDigit (d : Nat) (hd : d < 16) : hexVal (hexDigit d) = some d := by
  interval_cases d <;> rfl

/-- The four digits written for a code unit below 65536 read back as that code unit. -/
theorem hex4_unicodeEscape (c : Nat) (hc : c < 65536) :
    hex4 (hexDigit (c / 4096 % 16)) (hexDigit (c / 256 % 16)) (hexDigit (c / 16 % 16))
      (hexDigit (c % 16)) = some c := by
  simp only [hex4, hexVal_hexDigit _ (Nat.mod_lt _ (by decide : 0 < 16))]
  congr 1
  omega

theorem parseChars_quoteMark (rest : List Nat) : parseChars (34 :: rest) = some ([], rest) := by
  rw [parseChars.eq_def]; simp

theorem parseChars_escape (e u : Nat) (rest : List Nat) (s : JSString) (r : List Nat)
    (he : e ≠ 117) (hu : unescape e = some u) (hrest : parseChars rest = some (s, r)) :
    parseChars (92 :: e :: rest) = some (u :: s, r) := by
  rw [parseChars.eq_def]; simp [he, hu, hrest]

theorem parseChars_unicodeEscape (c : Nat) (hc : c < 65536) (rest : List Nat) (s : JSString)
    (r : List Nat) (hrest : parseChars rest = some (s, r)) :
    parseChars (unicodeEscape c ++ rest) = some (c :: s, r) := by
  simp only [unicodeEscape, List.cons_append, List.nil_append]
  rw [parseChars.eq_def]
  simp [hex4_unicodeEscape c hc, hrest]

theorem parseChars_literal (c : Nat) (rest : List Nat) (s : JSString) (r : List Nat)
    (h1 : c ≠ 34) (h2 : c ≠ 92) (h3 : ¬ c < 32) (hrest : parseChars rest = some (s, r)) :
    parseChars (c :: rest) = some (c :: s, r) := by
  rw [parseChars.eq_def]; simp [h1, h2, h3, hrest]

/-- Reading the characters written for a string, followed by the closing quote, returns the string and what follows the quote. -/
theorem parseChars_quoteChars (s : JSString) (rest : List Nat) :
    parseChars (quoteChars s ++ 34 :: rest) = some (s, rest) := by
  induction s using quoteChars.induct with
  | case1 => rw [quoteChars.eq_def]; simpa using parseChars_quoteMark rest
  | case2 cs ih => rw [quoteChars.eq_def]; simpa using parseChars_escape 98 8 _ _ _ (by decide) rfl ih
  | case3 cs _ ih => rw [quoteChars.eq_def]; simpa using parseChars_escape 116 9 _ _ _ (by decide) rfl ih
  | case4 cs _ _ ih => rw [quoteChars.eq_def]; simpa using parseChars_escape 110 10 _ _ _ (by decide) rfl ih
  | case5 cs _ _ _ ih => rw [quoteChars.eq_def]; simpa using parseChars_escape 102 12 _ _ _ (by decide) rfl ih
  | case6 cs _ _ _ _ ih => rw [quoteChars.eq_def]; simpa using parseChars_escape 114 13 _ _ _ (by decide) rfl ih
  | case7 cs _ _ _ _ _ ih => rw [quoteChars.eq_def]; simpa using parseChars_escape 34 34 _ _ _ (by decide) rfl ih
  | case8 cs _ _ _ _ _ _ ih => rw [quoteChars.eq_def]; simpa using parseChars_escape 92 92 _ _ _ (by decide) rfl ih
  | case9 c cs h1 h2 h3 h4 h5 h6 h7 h8 ih =>
    have := parseChars_unicodeEscape c (by omega) _ _ _ ih
    rw [quoteChars.eq_def]; simpa [-List.cons_append, -List.append_assoc, h1, h2, h3, h4, h5, h6, h7, h8] using this
  | case10 c h1 h2 h3 h4 h5 h6 h7 h8 hh =>
    have hc : c < 65536 := by simp [isHigh] at hh; omega
    have := parseChars_unicodeEscape c hc _ _ _ (parseChars_quoteMark rest)
    rw [quoteChars.eq_def]; simpa [-List.cons_append, -List.append_assoc, h1, h2, h3, h4, h5, h6, h7, h8, hh] using this
  | case11 c h1 h2 h3 h4 h5 h6 h7 h8 hh d cs hl ih =>
    have hd : d ≠ 34 ∧ d ≠ 92 ∧ ¬ d < 32 := by simp [isLow] at hl; omega
    have := parseChars_literal c _ _ _ h6 h7 h8 (parseChars_literal d _ _ _ hd.1 hd.2.1 hd.2.2 ih)
    rw [quoteChars.eq_def]; simpa [-List.cons_append, -List.append_assoc, h1, h2, h3, h4, h5, h6, h7, h8, hh, hl] using this
  | case12 c h1 h2 h3 h4 h5 h6 h7 h8 hh d cs hl ih =>
    have hc : c < 65536 := by simp [isHigh] at hh; omega
    have := parseChars_unicodeEscape c hc _ _ _ ih
    rw [quoteChars.eq_def]; simpa [-List.cons_append, -List.append_assoc, h1, h2, h3, h4, h5, h6, h7, h8, hh, hl] using this
  | case13 c cs h1 h2 h3 h4 h5 h6 h7 h8 hh hl ih =>
    have hc : c < 65536 := by simp [isLow] at hl; omega
    have := parseChars_unicodeEscape c hc _ _ _ ih
    rw [quoteChars.eq_def]; simpa [-List.cons_append, -List.append_assoc, h1, h2, h3, h4, h5, h6, h7, h8, hh, hl] using this
  | case14 c cs h1 h2 h3 h4 h5 h6 h7 h8 hh hl ih =>
    have := parseChars_literal c _ _ _ h6 h7 h8 ih
    rw [quoteChars.eq_def]; simpa [-List.cons_append, -List.append_assoc, h1, h2, h3, h4, h5, h6, h7, h8, hh, hl] using this

theorem digitsValue_snoc (ds : List Nat) (d : Nat) :
    digitsValue (ds ++ [d]) = 10 * digitsValue ds + (d - 48) := by
  simp [digitsValue, List.foldl_append]

theorem isDigit_of_mem_decimalAux (fuel n d : Nat) (hd : d ∈ decimalAux fuel n) :
    isDigit d = true := by
  induction fuel generalizing n with
  | zero =>
    simp only [decimalAux, List.mem_singleton] at hd
    subst hd; simp [isDigit]; omega
  | succ fuel ih =>
    rw [decimalAux] at hd
    split at hd
    · simp only [List.mem_singleton] at hd
      subst hd; simp [isDigit]; omega
    · rcases List.mem_append.mp hd with h | h
      · exact ih _ h
      · simp only [List.mem_singleton] at h
        subst h; simp [isDigit]; omega

/-- The digits written for a number denote that number. -/
theorem digitsValue_decimalAux (fuel n : Nat) (hn : n ≤ fuel) :
    digitsValue (decimalAux fuel n) = n := by
  induction fuel generalizing n with
  | zero =>
    have : n = 0 := by omega
    subst this; rfl
  | succ fuel ih =>
    rw [decimalAux]
    split
    · simp [digitsValue]
    · rw [digitsValue_snoc, ih _ (by omega)]; omega

theorem decimalAux_ne_nil (fuel n : Nat) : decimalAux fuel n ≠ [] := by
  cases fuel with
  | zero => simp [decimalAux]
  | succ fuel => rw [decimalAux]; split <;> simp

theorem head?_decimalAux (fuel n : Nat) (hn : n ≤ fuel) (hpos : 0 < n) :
    (decimalAux fuel n).head? ≠ some 48 := by
  induction fuel generalizing n with
  | zero => omega
  | succ fuel ih =>
    rw [decimalAux]
    split
    · simp; omega
    · have h1 := ih (n / 10) (by omega) (by omega)
      have h2 := decimalAux_ne_nil fuel (n / 10)
      cases hx : decimalAux fuel (n / 10) with
      | nil => exact absurd hx h2
      | cons a as => rw [hx] at h1; simpa using h1

theorem decimal_zero : decimal 0 = [48] := rfl

/-- A number is written without a leading zero, except zero itself. -/
theorem decimal_leading (n : Nat) :
    ¬ (1 < (decimal n).length ∧ (decimal n).head? = some 48) := by
  rcases Nat.eq_zero_or_pos n with h | h
  · subst h; simp [decimal_zero]
  · intro hc
    exact head?_decimalAux n n (Nat.le_refl _) h hc.2

theorem takeWhile_digits (ds : List Nat) (c : Nat) (rest : List Nat)
    (hds : ∀ d ∈ ds, isDigit d = true) (hc : isDigit c = false) :
    (ds ++ c :: rest).takeWhile isDigit = ds := by
  induction ds with
  | nil => simp [List.takeWhile, hc]
  | cons d ds ih =>
    have hd := hds d (List.mem_cons_self _ _)
    simp [List.takeWhile, hd, ih (fun x hx => hds x (List.mem_cons_of_mem _ hx))]

theorem dropWhile_digits (ds : List Nat) (c : Nat) (rest : List Nat)
    (hds : ∀ d ∈ ds, isDigit d = true) (hc : isDigit c = false) :
    (ds ++ c :: rest).dropWhile isDigit = c :: rest := by
  induction ds with
  | nil => simp [List.dropWhile, hc]
  | cons d ds ih =>
    have hd := hds d (List.mem_cons_self _ _)
    simp [List.dropWhile, hd, ih (fun x hx => hds x (List.mem_cons_of_mem _ hx))]

theorem decimal_cons (n : Nat) :
    ∃ d ds, decimal n = d :: ds ∧ 48 ≤ d ∧ d ≤ 57 := by
  cases hx : decimal n with
  | nil => exact absurd hx (decimalAux_ne_nil n n)
  | cons d ds =>
    have := isDigit_of_mem_decimalAux n n d (by unfold decimal at hx; rw [hx]; simp)
    simp [isDigit] at this
    exact ⟨d, ds, rfl, this.1, this.2⟩

/-- A written natural number followed by a comma or a closing brace reads back as that number. -/
theorem parseUnsigned_decimal (n c : Nat) (rest : List Nat) (hc : c = 44 ∨ c = 125) :
    parseUnsigned false (decimal n ++ c :: rest) = some ((n : ℚ), c :: rest) := by
  have hds : ∀ d ∈ decimal n, isDigit d = true := fun d hd => isDigit_of_mem_decimalAux n n d hd
  have hcd : isDigit c = false := by rcases hc with h | h <;> subst h <;> rfl
  have hne : decimal n ≠ [] := decimalAux_ne_nil n n
  have hhead : (decimal n ++ c :: rest).head? = (decimal n).head? := by
    cases hx : decimal n with
    | nil => exact absurd hx hne
    | cons a as => simp
  have hlead := decimal_leading n
  have hc46 : c ≠ 46 := by omega
  have hce : ¬ (c = 101 ∨ c = 69) := by omega
  unfold parseUnsigned
  rw [takeWhile_digits _ _ _ hds hcd, dropWhile_digits _ _ _ hds hcd, hhead]
  simp only [hne, if_false, hlead]
  simp [parseFraction, hc46, parseExponent, hce, numberValue]
  exact digitsValue_decimalAux n n (Nat.le_refl _)

theorem skipWs_cons (c : Nat) (rest : List Nat) (hc : isWs c = false) :
    skipWs (c :: rest) = c :: rest := by
  simp [skipWs, hc]

/-- The value parser reads a written natural number. -/
theorem parseValue_decimal (fuel n c : Nat) (rest : List Nat) (hc : c = 44 ∨ c = 125) :
    parseValue (fuel + 1) (decimal n ++ c :: rest) = some (.num (n : ℚ), c :: rest) := by
  have hnum := parseUnsigned_decimal n c rest hc
  obtain ⟨d, ds, hd, h1, h2⟩ := decimal_cons n
  rw [hd] at hnum ⊢
  have hws : isWs d = false := by simp [isWs]; omega
  rw [List.cons_append] at hnum ⊢
  rw [parseValue, skipWs_cons _ _ hws]
  have e1 : d ≠ 110 := by omega
  have e2 : d ≠ 116 := by omega
  have e3 : d ≠ 102 := by omega
  have e4 : d ≠ 34 := by omega
  have e5 : d ≠ 91 := by omega
  have e6 : d ≠ 123 := by omega
  have e7 : d ≠ 45 := by omega
  simp only [e1, e2, e3, e4, e5, e6, if_false]
  simp only [parseNumber, e7, if_false, hnum]

theorem js_null : js "null" = [110, 117, 108, 108] := by decide
theorem js_ull : js "ull" = [117, 108, 108] := by decide

/-- The value parser reads a written string or null. -/
theorem parseValue_nullable (fuel : Nat) (v : Option JSString) (rest : List Nat) :
    parseValue (fuel + 1) (nullable v ++ rest) = some (JVal.ofNullable v, rest) := by
  cases v with
  | none =>
    simp only [nullable, js_null, List.cons_append, List.nil_append]
    rw [parseValue, skipWs_cons _ _ (by decide)]
    simp [js_ull, dropLiteral, JVal.ofNullable]
  | some s =>
    simp only [nullable, quote, List.cons_append, List.append_assoc, List.singleton_append]
    rw [parseValue, skipWs_cons _ _ (by decide)]
    simp [parseChars_quoteChars, JVal.ofNullable]

/-- Reading a written member that is followed by a comma and further members. -/
theorem parseMembers_more (fuel : Nat) (k : JSString) (text more r : List Nat) (v : JVal)
    (ms : List (JSString × JVal))
    (hv : parseValue fuel (text ++ 44 :: more) = some (v, 44 :: more))
    (hms : parseMembers fuel more = some (ms, r)) :
    parseMembers (fuel + 1) (quote k ++ 58 :: (text ++ 44 :: more)) = some (addMember k v ms, r) := by
  simp only [quote, List.cons_append, List.append_assoc, List.singleton_append,
    List.nil_append]
  rw [parseMembers, skipWs_cons _ _ (by decide)]
  simp only [if_true, parseChars_quoteChars]
  rw [skipWs_cons _ _ (by decide)]
  simp only [if_true, hv]
  rw [skipWs_cons _ _ (by decide)]
  simp [hms]

/-- Reading the last written member of an object. -/
theorem parseMembers_last (fuel : Nat) (k : JSString) (text more : List Nat) (v : JVal)
    (hv : parseValue fuel (text ++ 125 :: more) = some (v, 125 :: more)) :
    parseMembers (fuel + 1) (quote k ++ 58 :: (text ++ 125 :: more)) = some ([(k, v)], more) := by
  simp only [quote, List.cons_append, List.append_assoc, List.singleton_append,
    List.nil_append]
  rw [parseMembers, skipWs_cons _ _ (by decide)]
  simp only [if_true, parseChars_quoteChars]
  rw [skipWs_cons _ _ (by decide)]
  simp only [if_true, hv]
  rw [skipWs_cons _ _ (by decide)]
  simp

theorem key_ne1 : js "type" ≠ js "step" := by decide
theorem key_ne2 : js "model" ≠ js "step" := by decide
theorem key_ne3 : js "false" ≠ js "step" := by decide
theorem key_ne4 : js "model" ≠ js "type" := by decide
theorem key_ne5 : js "false" ≠ js "type" := by decide
theorem key_ne6 : js "false" ≠ js "model" := by decide

/-- With a recursion bound of at least six, the value parser reads a written flow state back as its object. -/
theorem parseValue_stringify (fuel : Nat) (fs : FlowState) (rest : List Nat) :
    parseValue (fuel + 6) (stringify fs ++ rest) = some (fs.toJVal, rest) := by
  obtain ⟨step, type, model, falseKey⟩ := fs
  cases falseKey with
  | none =>
    have h3 : parseMembers (fuel + 3) _ = _ :=
      parseMembers_last (fuel + 2) (js "model") (nullable model) rest _
        (parseValue_nullable _ model _)
    have h2 : parseMembers (fuel + 4) _ = _ :=
      parseMembers_more (fuel + 3) (js "type") (nullable type) _ _ _ _
        (parseValue_nullable _ type _) h3
    have h1 : parseMembers (fuel + 5) _ = _ :=
      parseMembers_more (fuel + 4) (js "step") (decimal step) _ _ _ _
        (parseValue_decimal _ step 44 _ (Or.inl rfl)) h2
    simp only [stringify, List.cons_append, List.append_assoc, List.singleton_append,
      List.nil_append]
    rw [parseValue, skipWs_cons _ _ (by decide)]
    simp only [quote, List.cons_append, List.append_assoc, List.singleton_append,
      List.nil_append] at h1 ⊢
    rw [skipWs_cons _ _ (by decide)]
    simp [h1, FlowState.toJVal, addMember, key_ne1, key_ne2, key_ne4]
  | some fv =>
    have h4 : parseMembers (fuel + 2) _ = _ :=
      parseMembers_last (fuel + 1) (js "false") (nullable fv) rest _
        (parseValue_nullable _ fv _)
    have h3 : parseMembers (fuel + 3) _ = _ :=
      parseMembers_more (fuel + 2) (js "model") (nullable model) _ _ _ _
        (parseValue_nullable _ model _) h4
    have h2 : parseMembers (fuel + 4) _ = _ :=
      parseMembers_more (fuel + 3) (js "type") (nullable type) _ _ _ _
        (parseValue_nullable _ type _) h3
    have h1 : parseMembers (fuel + 5) _ = _ :=
      parseMembers_more (fuel + 4) (js "step") (decimal step) _ _ _ _
        (parseValue_decimal _ step 44 _ (Or.inl rfl)) h2
    simp only [stringify, List.cons_append, List.append_assoc, List.singleton_append,
      List.nil_append]
    rw [parseValue, skipWs_cons _ _ (by decide)]
    simp only [quote, List.cons_append, List.append_assoc, List.singleton_append,
      List.nil_append] at h1 ⊢
    rw [skipWs_cons _ _ (by decide)]
    simp [h1, FlowState.toJVal, addMember, key_ne1, key_ne2, key_ne3, key_ne4, key_ne5, key_ne6]

theorem two_le_length_stringify (fs : FlowState) : 2 ≤ (stringify fs).length := by
  simp [stringify, quote]

/-- The law of `JSON.parse` after `JSON.stringify` on flow states. -/
theorem parse_stringify (fs : FlowState) : parse (stringify fs) = some fs.toJVal := by
  have h := parseValue_stringify (2 * (stringify fs).length + 2 - 6) fs []
  have h2 := two_le_length_stringify fs
  have e : 2 * (stringify fs).length + 2 - 6 + 6 = 2 * (stringify fs).length + 2 := by omega
  rw [e, List.append_nil] at h
  simp [parse, h, skipWs]

/-! ### The bound on the recursion is enough -/

theorem skipWs_length_le (t : List Nat) : (skipWs t).length ≤ t.length := by
  induction t with
  | nil => simp [skipWs]
  | cons c cs ih =>
    rw [skipWs]
    split
    · simp; omega
    · simp

theorem dropLiteral_length (lit t r : List Nat) (hd : dropLiteral lit t = some r) :
    r.length ≤ t.length := by
  induction lit generalizing t with
  | nil => simp [dropLiteral] at hd; subst hd; exact Nat.le_refl _
  | cons c cs ih =>
    cases t with
    | nil => simp [dropLiteral] at hd
    | cons d ds =>
      rw [dropLiteral] at hd
      split at hd
      · have := ih ds hd
        simp; omega
      · simp at hd

theorem parseChars_length_aux (n : Nat) :
    ∀ (t : List Nat), t.length ≤ n → ∀ (s : JSString) (r : List Nat),
      parseChars t = some (s, r) → r.length < t.length := by
  induction n with
  | zero =>
    intro t hl s r hp
    have : t = [] := List.eq_nil_of_length_eq_zero (by omega)
    subst this
    simp [parseChars] at hp
  | succ n ih =>
    intro t hl s r hp
    rw [parseChars.eq_def] at hp
    split at hp
    · simp at hp
    · rename_i c rest
      simp only [List.length_cons] at hl ⊢
      split_ifs at hp
      · simp at hp; rw [← hp.2]; omega
      · split at hp
        · simp at hp
        · rename_i e rest1
          simp only [List.length_cons] at hl ⊢
          split_ifs at hp
          · split at hp
            · rename_i a b c d rest2
              simp only [List.length_cons] at hl ⊢
              split at hp
              · rename_i u s1 r1 _ hrec
                simp at hp
                have := ih rest2 (by omega) _ _ hrec
                rw [← hp.2]; omega
              · simp at hp
            · simp at hp
          · split at hp
            · rename_i u s1 r1 _ hrec
              simp at hp
              have := ih rest1 (by omega) _ _ hrec
              rw [← hp.2]; omega
            · simp at hp
      · split at hp
        · rename_i s1 r1 hrec
          simp at hp
          have := ih rest (by omega) _ _ hrec
          rw [← hp.2]; omega
        · simp at hp

theorem parseChars_length (t : List Nat) (s : JSString) (r : List Nat)
    (hp : parseChars t = some (s, r)) : r.length < t.length :=
  parseChars_length_aux t.length t (Nat.le_refl _) s r hp

theorem length_dropWhile_le (p : Nat → Bool) (t : List Nat) :
    (t.dropWhile p).length ≤ t.length := by
  induction t with
  | nil => simp
  | cons c cs ih =>
    rw [List.dropWhile_cons]
    split
    · simp; omega
    · simp

theorem length_dropWhile_lt (p : Nat → Bool) (t : List Nat) (hne : t.takeWhile p ≠ []) :
    (t.dropWhile p).length < t.length := by
  cases t with
  | nil => simp at hne
  | cons c cs =>
    rw [List.takeWhile_cons] at hne
    rw [List.dropWhile_cons]
    split
    · have := length_dropWhile_le p cs
      simp; omega
    · rename_i hc
      simp [hc] at hne

theorem parseFraction_length (t fp r : List Nat) (hp : parseFraction t = some (fp, r)) :
    r.length ≤ t.length := by
  unfold parseFraction at hp
  split at hp
  · simp at hp; rw [← hp.2]
  · rename_i c rest
    split_ifs at hp
    · simp at hp
      have := length_dropWhile_le isDigit rest
      rw [← hp.2]; simp; omega
    · simp at hp; rw [← hp.2]

theorem parseExponent_length (t : List Nat) (e : Int) (r : List Nat)
    (hp : parseExponent t = some (e, r)) : r.length ≤ t.length := by
  unfold parseExponent at hp
  cases t with
  | nil => simp at hp; rw [← hp.2]
  | cons c rest =>
    simp only [] at hp
    by_cases hc : c = 101 ∨ c = 69
    · rw [if_pos hc] at hp
      cases rest with
      | nil => simp at hp
      | cons s rest1 =>
        simp only [] at hp
        have h1 := length_dropWhile_le isDigit rest1
        have h2 := length_dropWhile_le isDigit (s :: rest1)
        simp only [List.length_cons] at h2 ⊢
        by_cases hs : s = 45
        · rw [if_pos hs] at hp
          split at hp
          · simp at hp
          · simp only [Option.some.injEq, Prod.mk.injEq] at hp
            rw [← hp.2]; omega
        · rw [if_neg hs] at hp
          by_cases hs2 : s = 43
          · rw [if_pos hs2] at hp
            split at hp
            · simp at hp
            · simp only [Option.some.injEq, Prod.mk.injEq] at hp
              rw [← hp.2]; omega
          · rw [if_neg hs2] at hp
            split at hp
            · simp at hp
            · simp only [Option.some.injEq, Prod.mk.injEq] at hp
              rw [← hp.2]; omega
    · rw [if_neg hc] at hp
      simp only [Option.some.injEq, Prod.mk.injEq] at hp
      rw [← hp.2]

theorem parseUnsigned_length (neg : Bool) (t : List Nat) (q : ℚ) (r : List Nat)
    (hp : parseUnsigned neg t = some (q, r)) : r.length < t.length := by
  unfold parseUnsigned at hp
  split_ifs at hp with h1 h2
  have hlt := length_dropWhile_lt isDigit t h1
  split at hp
  · simp at hp
  · rename_i fp rest1 hf
    have hfl := parseFraction_length _ _ _ hf
    split at hp
    · simp at hp
    · rename_i e rest2 he
      have hel := parseExponent_length _ _ _ he
      simp at hp
      rw [← hp.2]; omega

theorem parseNumber_length (t : List Nat) (q : ℚ) (r : List Nat)
    (hp : parseNumber t = some (q, r)) : r.length < t.length := by
  unfold parseNumber at hp
  split at hp
  · simp at hp
  · rename_i c rest
    split_ifs at hp
    · have := parseUnsigned_length _ _ _ _ hp
      simp; omega
    · exact parseUnsigned_length _ _ _ _ hp

/-- The part of `parseValue` that does not recurse: keywords, strings and numbers. -/
theorem parseValue_leaf (f g : Nat) (t : List Nat) (c : Nat) (rest : List Nat)
    (hs : skipWs t = c :: rest) (h91 : c ≠ 91) (h123 : c ≠ 123) :
    parseValue (f + 1) t = parseValue (g + 1) t := by
  rw [parseValue, parseValue, hs]
  simp only [h91, h123, if_false]

theorem parseValue_leaf_length (f : Nat) (t : List Nat) (c : Nat) (rest : List Nat) (v : JVal)
    (r : List Nat) (hs : skipWs t = c :: rest) (h91 : c ≠ 91) (h123 : c ≠ 123)
    (hp : parseValue (f + 1) t = some (v, r)) : r.length < t.length := by
  have hsl := skipWs_length_le t
  rw [hs] at hsl
  simp only [List.length_cons] at hsl
  rw [parseValue, hs] at hp
  simp only [h91, h123, if_false] at hp
  by_cases h1 : c = 110
  · rw [if_pos h1] at hp
    split at hp
    · rename_i r1 hd
      have := dropLiteral_length _ _ _ hd
      simp only [Option.some.injEq, Prod.mk.injEq] at hp
      rw [← hp.2]; omega
    · simp at hp
  rw [if_neg h1] at hp
  by_cases h2 : c = 116
  · rw [if_pos h2] at hp
    split at hp
    · rename_i r1 hd
      have := dropLiteral_length _ _ _ hd
      simp only [Option.some.injEq, Prod.mk.injEq] at hp
      rw [← hp.2]; omega
    · simp at hp
  rw [if_neg h2] at hp
  by_cases h3 : c = 102
  · rw [if_pos h3] at hp
    split at hp
    · rename_i r1 hd
      have := dropLiteral_length _ _ _ hd
      simp only [Option.some.injEq, Prod.mk.injEq] at hp
      rw [← hp.2]; omega
    · simp at hp
  rw [if_neg h3] at hp
  by_cases h4 : c = 34
  · rw [if_pos h4] at hp
    split at hp
    · rename_i s r1 hd
      have := parseChars_length _ _ _ hd
      simp only [Option.some.injEq, Prod.mk.injEq] at hp
      rw [← hp.2]; omega
    · simp at hp
  rw [if_neg h4] at hp
  split at hp
  · rename_i q r1 hd
    have := parseNumber_length _ _ _ hd
    simp only [List.length_cons, Option.some.injEq, Prod.mk.injEq] at this hp
    rw [← hp.2]; omega
  · simp at hp

/-- A successful read consumes input, and succeeds again, with the same result, under every recursion bound of at least twice the number of code units consumed (less one for elements and members). -/
theorem fuel_adequate (f : Nat) :
    (∀ t v r, parseValue f t = some (v, r) →
        r.length < t.length
          ∧ ∀ g, 2 * (t.length - r.length) ≤ g → parseValue g t = some (v, r))
      ∧ (∀ t vs r, parseElements f t = some (vs, r) →
        r.length + 2 ≤ t.length
          ∧ ∀ g, 2 * (t.length - r.length) - 1 ≤ g → parseElements g t = some (vs, r))
      ∧ (∀ t ms r, parseMembers f t = some (ms, r) →
        r.length + 2 ≤ t.length
          ∧ ∀ g, 2 * (t.length - r.length) - 1 ≤ g → parseMembers g t = some (ms, r)) := by
  induction f with
  | zero =>
    refine ⟨?_, ?_, ?_⟩ <;> intro t v r hp
    · simp [parseValue] at hp
    · simp [parseElements] at hp
    · simp [parseMembers] at hp
  | succ f ih =>
    obtain ⟨ihV, ihE, ihM⟩ := ih
    refine ⟨?_, ?_, ?_⟩
    · intro t v r hp
      have hsl := skipWs_length_le t
      cases hs : skipWs t with
      | nil => rw [parseValue, hs] at hp; simp at hp
      | cons c rest =>
        rw [hs] at hsl
        simp only [List.length_cons] at hsl
        by_cases h91 : c = 91
        · have hsl2 := skipWs_length_le rest
          rw [parseValue, hs] at hp
          simp only [h91] at hp
          simp only [show ¬ (91 = 110) by decide, show ¬ (91 = 116) by decide,
            show ¬ (91 = 102) by decide, show ¬ (91 = 34) by decide, if_false, if_true] at hp
          cases hs2 : skipWs rest with
          | nil => rw [hs2] at hp; simp at hp
          | cons d r0 =>
            rw [hs2] at hp hsl2
            simp only [List.length_cons] at hsl2
            simp only [] at hp
            by_cases hd : d = 93
            · rw [if_pos hd] at hp
              simp only [Option.some.injEq, Prod.mk.injEq] at hp
              obtain ⟨hv, hr⟩ := hp
              subst hv hr
              refine ⟨by omega, ?_⟩
              intro g hg
              obtain ⟨g1, rfl⟩ : ∃ g1, g = g1 + 1 := ⟨g - 1, by omega⟩
              rw [parseValue, hs]
              simp [h91, hs2, hd]
            · rw [if_neg hd] at hp
              cases he : parseElements f rest with
              | none => rw [he] at hp; simp at hp
              | some p =>
                obtain ⟨vs, r1⟩ := p
                rw [he] at hp
                simp only [Option.some.injEq, Prod.mk.injEq] at hp
                obtain ⟨hv, hr⟩ := hp
                subst hv hr
                obtain ⟨hlen, hg1⟩ := ihE _ _ _ he
                refine ⟨by omega, ?_⟩
                intro g hg
                obtain ⟨g1, rfl⟩ : ∃ g1, g = g1 + 1 := ⟨g - 1, by omega⟩
                rw [parseValue, hs]
                simp [h91, hs2, hd, hg1 g1 (by omega)]
        · by_cases h123 : c = 123
          · have hsl2 := skipWs_length_le rest
            rw [parseValue, hs] at hp
            simp only [h123] at hp
            simp only [show ¬ (123 = 110) by decide, show ¬ (123 = 116) by decide,
              show ¬ (123 = 102) by decide, show ¬ (123 = 34) by decide,
              show ¬ (123 = 91) by decide, if_false, if_true] at hp
            cases hs2 : skipWs rest with
            | nil => rw [hs2] at hp; simp at hp
            | cons d r0 =>
              rw [hs2] at hp hsl2
              simp only [List.length_cons] at hsl2
              simp only [] at hp
              by_cases hd : d = 125
              · rw [if_pos hd] at hp
                simp only [Option.some.injEq, Prod.mk.injEq] at hp
                obtain ⟨hv, hr⟩ := hp
                subst hv hr
                refine ⟨by omega, ?_⟩
                intro g hg
                obtain ⟨g1, rfl⟩ : ∃ g1, g = g1 + 1 := ⟨g - 1, by omega⟩
                rw [parseValue, hs]
                simp [h123, hs2, hd]
              · rw [if_neg hd] at hp
                cases he : parseMembers f rest with
                | none => rw [he] at hp; simp at hp
                | some p =>
                  obtain ⟨ms, r1⟩ := p
                  rw [he] at hp
                  simp only [Option.some.injEq, Prod.mk.injEq] at hp
                  obtain ⟨hv, hr⟩ := hp
                  subst hv hr
                  obtain ⟨hlen, hg1⟩ := ihM _ _ _ he
                  refine ⟨by omega, ?_⟩
                  intro g hg
                  obtain ⟨g1, rfl⟩ : ∃ g1, g = g1 + 1 := ⟨g - 1, by omega⟩
                  rw [parseValue, hs]
                  simp [h123, hs2, hd, hg1 g1 (by omega)]
          · have hlen := parseValue_leaf_length f t c rest v r hs h91 h123 hp
            refine ⟨hlen, ?_⟩
            intro g hg
            obtain ⟨g1, rfl⟩ : ∃ g1, g = g1 + 1 := ⟨g - 1, by omega⟩
            rw [← parseValue_leaf f g1 t c rest hs h91 h123]
            exact hp
    · intro t vs r hp
      rw [parseElements] at hp
      cases hv : parseValue f t with
      | none => rw [hv] at hp; simp at hp
      | some p =>
        obtain ⟨v, r0⟩ := p
        rw [hv] at hp
        simp only [] at hp
        obtain ⟨hlen0, hg0⟩ := ihV _ _ _ hv
        have hsl := skipWs_length_le r0
        cases hs : skipWs r0 with
        | nil => rw [hs] at hp; simp at hp
        | cons c r1 =>
          rw [hs] at hp hsl
          simp only [List.length_cons] at hsl
          simp only [] at hp
          by_cases hc : c = 44
          · rw [if_pos hc] at hp
            cases he : parseElements f r1 with
            | none => rw [he] at hp; simp at hp
            | some p =>
              obtain ⟨vs1, r2⟩ := p
              rw [he] at hp
              simp only [Option.some.injEq, Prod.mk.injEq] at hp
              obtain ⟨hvs, hr⟩ := hp
              subst hvs hr
              obtain ⟨hlen1, hg1⟩ := ihE _ _ _ he
              refine ⟨by omega, ?_⟩
              intro g hg
              obtain ⟨g1, rfl⟩ : ∃ g1, g = g1 + 1 := ⟨g - 1, by omega⟩
              rw [parseElements, hg0 g1 (by omega)]
              simp [hs, hc, hg1 g1 (by omega)]
          · rw [if_neg hc] at hp
            by_cases hc2 : c = 93
            · rw [if_pos hc2] at hp
              simp only [Option.some.injEq, Prod.mk.injEq] at hp
              obtain ⟨hvs, hr⟩ := hp
              subst hvs hr
              refine ⟨by omega, ?_⟩
              intro g hg
              obtain ⟨g1, rfl⟩ : ∃ g1, g = g1 + 1 := ⟨g - 1, by omega⟩
              rw [parseElements, hg0 g1 (by omega)]
              simp [hs, hc2]
            · rw [if_neg hc2] at hp; simp at hp
    · intro t ms r hp
      rw [parseMembers] at hp
      have hsl := skipWs_length_le t
      cases hs : skipWs t with
      | nil => rw [hs] at hp; simp at hp
      | cons q r0 =>
        rw [hs] at hp hsl
        simp only [List.length_cons] at hsl
        simp only [] at hp
        by_cases hq : q = 34
        · rw [if_pos hq] at hp
          cases hk : parseChars r0 with
          | none => rw [hk] at hp; simp at hp
          | some p =>
            obtain ⟨k, r1⟩ := p
            rw [hk] at hp
            simp only [] at hp
            have hkl := parseChars_length _ _ _ hk
            have hsl1 := skipWs_length_le r1
            cases hs1 : skipWs r1 with
            | nil => rw [hs1] at hp; simp at hp
            | cons colon r2 =>
              rw [hs1] at hp hsl1
              simp only [List.length_cons] at hsl1
              simp only [] at hp
              by_cases hcol : colon = 58
              · rw [if_pos hcol] at hp
                cases hv : parseValue f r2 with
                | none => rw [hv] at hp; simp at hp
                | some p =>
                  obtain ⟨v, r3⟩ := p
                  rw [hv] at hp
                  simp only [] at hp
                  obtain ⟨hlen3, hg3⟩ := ihV _ _ _ hv
                  have hsl3 := skipWs_length_le r3
                  cases hs3 : skipWs r3 with
                  | nil => rw [hs3] at hp; simp at hp
                  | cons c r4 =>
                    rw [hs3] at hp hsl3
                    simp only [List.length_cons] at hsl3
                    simp only [] at hp
                    by_cases hc : c = 44
                    · rw [if_pos hc] at hp
                      cases hm : parseMembers f r4 with
                      | none => rw [hm] at hp; simp at hp
                      | some p =>
                        obtain ⟨ms1, r5⟩ := p
                        rw [hm] at hp
                        simp only [Option.some.injEq, Prod.mk.injEq] at hp
                        obtain ⟨hms, hr⟩ := hp
                        subst hms hr
                        obtain ⟨hlen5, hg5⟩ := ihM _ _ _ hm
                        refine ⟨by omega, ?_⟩
                        intro g hg
                        obtain ⟨g1, rfl⟩ : ∃ g1, g = g1 + 1 := ⟨g - 1, by omega⟩
                        rw [parseMembers, hs]
                        simp [hq, hk, hs1, hcol, hg3 g1 (by omega), hs3, hc, hg5 g1 (by omega)]
                    · rw [if_neg hc] at hp
                      by_cases hc2 : c = 125
                      · rw [if_pos hc2] at hp
                        simp only [Option.some.injEq, Prod.mk.injEq] at hp
                        obtain ⟨hms, hr⟩ := hp
                        subst hms hr
                        refine ⟨by omega, ?_⟩
                        intro g hg
                        obtain ⟨g1, rfl⟩ : ∃ g1, g = g1 + 1 := ⟨g - 1, by omega⟩
                        rw [parseMembers, hs]
                        simp [hq, hk, hs1, hcol, hg3 g1 (by omega), hs3, hc2]
                      · rw [if_neg hc2] at hp; simp at hp
              · rw [if_neg hcol] at hp; simp at hp
        · rw [if_neg hq] at hp; simp at hp

/-- Whatever some bound on the recursion parses, the bound used by `parse`
parses to the same result: `parse` fails only on text that is not JSON. -/
theorem parseValue_of_fuel (f : Nat) (t : List Nat) (v : JVal) (r : List Nat)
    (hp : parseValue f t = some (v, r)) :
    parseValue (2 * t.length + 2) t = some (v, r) :=
  ((fuel_adequate f).1 t v r hp).2 _ (by omega)

/-- The text fails to parse only when no bound on the recursion reads a value
followed by nothing but whitespace. -/
theorem parse_eq_none_iff (text : JSString) :
    parse text = none ↔
      ∀ f v r, parseValue f text = some (v, r) → skipWs r ≠ [] := by
  constructor
  · intro hp f v r hf hr
    have h := parseValue_of_fuel f text v r hf
    simp [parse, h, hr] at hp
  · intro hall
    unfold parse
    cases hv : parseValue (2 * text.length + 2) text with
    | none => rfl
    | some p =>
      obtain ⟨v, r⟩ := p
      have := hall _ v r hv
      simp [this]

end JSON

/-! ## The flow and the transcript -/

theorem flowQuestions_length : flowQuestions.length = 2 := rfl

theorem sendProductsSequentially_flowState (h : Host) (products : List Product) (st : AppState) :
    (sendProductsSequentially h products st).flowState = st.flowState := by
  unfold sendProductsSequentially
  split
  · rfl
  · split <;> rfl

theorem sendProductsSequentially_console (h : Host) (products : List Product) (st : AppState) :
    (sendProductsSequentially h products st).console = st.console := by
  unfold sendProductsSequentially
  split
  · rfl
  · split <;> rfl

/-- The state after a non-empty answer at step 0. -/
theorem handleSendMessage_first (h : Host) (net : Network) (st : AppState)
    (hin : st.input ≠ []) (hstep : st.flowState.step = 0) :
    handleSendMessage h net st =
      { st with
        messages := st.messages ++ [{ text := .plain st.input, isUser := true },
          { text := .plain (flowQuestions.getD 1 []), isUser := false }]
        input := []
        flowState := { st.flowState with type := parseResponse h 0 st.input, step := 1 }
        storage := some (JSON.stringify
          { st.flowState with type := parseResponse h 0 st.input, step := 1 }) } := by
  simp [handleSendMessage, hin, hstep, flowQuestions_length]

/-- After a non-empty answer at step 1 the flow state is reset, the stored entry is removed and the query has been logged. -/
theorem handleSendMessage_second (h : Host) (net : Network) (st : AppState)
    (hin : st.input ≠ []) (hstep : st.flowState.step = 1) :
    (handleSendMessage h net st).flowState = defaultFlowState
      ∧ (handleSendMessage h net st).storage = none
      ∧ (handleSendMessage h net st).console = st.console ++
          [join (js " ") (filterBoolean [st.flowState.type, parseResponse h 1 st.input])] := by
  simp [handleSendMessage, hin, hstep, flowQuestions_length, sendProductsSequentially_console,
    fetchData]
  split <;> rfl

/-- After a non-empty answer at any step other than 0 the flow state is reset and the stored entry is removed. -/
theorem handleSendMessage_later (h : Host) (net : Network) (st : AppState)
    (hin : st.input ≠ []) (hstep : 1 ≤ st.flowState.step) :
    (handleSendMessage h net st).flowState = defaultFlowState
      ∧ (handleSendMessage h net st).storage = none := by
  have h0 : st.flowState.step ≠ 0 := by omega
  have h2 : ¬ st.flowState.step + 1 < 2 := by omega
  by_cases h1 : st.flowState.step = 1 <;>
    simp [handleSendMessage, hin, h0, h1, h2, flowQuestions_length]

theorem useEffect_flowState (st : AppState) : (useEffect st).flowState = st.flowState := by
  unfold useEffect
  split <;> rfl

/-- The method `join` is `List.intercalate`. -/
theorem join_eq_intercalate (sep : JSString) (xs : List JSString) :
    join sep xs = sep.intercalate xs := by
  induction xs using join.induct sep with
  | case1 => rfl
  | case2 x => simp [join, List.intercalate]
  | case3 x y rest ih =>
    rw [join, ih]
    simp [List.intercalate, List.intersperse]

/-- On values none of which is the empty string, `filter(Boolean)` keeps exactly the non-null ones. -/
theorem filterBoolean_eq_filterMap (vs : List (Option JSString))
    (hvs : ∀ s, some s ∈ vs → s ≠ []) : filterBoolean vs = vs.filterMap id := by
  induction vs with
  | nil => rfl
  | cons v vs ih =>
    have ih1 := ih (fun s hs => hvs s (List.mem_cons_of_mem _ hs))
    cases v with
    | none => simp [filterBoolean, ih1]
    | some s =>
      have hs : s ≠ [] := hvs s (List.mem_cons_self _ _)
      simp [filterBoolean, hs, ih1]


/-! ## The claims -/

theorem JSON.parse_nil : JSON.parse [] = none := rfl

theorem JVal.ofNullable_injective (a b : Option JSString)
    (hab : JVal.ofNullable a = JVal.ofNullable b) : a = b := by
  cases a <;> cases b <;> simp [JVal.ofNullable] at hab ⊢
  exact hab

/-- Distinct flow states are distinct objects. -/
theorem FlowState.toJVal_injective (fs gs : FlowState) (hfg : fs.toJVal = gs.toJVal) :
    fs = gs := by
  obtain ⟨s1, t1, m1, f1⟩ := fs
  obtain ⟨s2, t2, m2, f2⟩ := gs
  cases f1 <;> cases f2 <;> simp [FlowState.toJVal] at hfg
  · obtain ⟨hs, ht, hm⟩ := hfg
    simp [hs, JVal.ofNullable_injective _ _ ht, JVal.ofNullable_injective _ _ hm]
  · obtain ⟨hs, ht, hm, hf⟩ := hfg
    simp [hs, JVal.ofNullable_injective _ _ ht, JVal.ofNullable_injective _ _ hm,
      JVal.ofNullable_injective _ _ hf]

/-- The reference host lower-cases a non-empty string to a non-empty string. -/
theorem Ref.toLowerCase_ne_nil (s : JSString) (hs : s ≠ []) : Ref.toLowerCase s ≠ [] := by
  simpa [Ref.toLowerCase] using hs

/-- C2: `parseResponse` is the reference parser at every step and text: when
the lower-cased text is "no" or "none" the result is null at every step;
otherwise step 0 gives the lower-cased text, step 1 gives the text unchanged,
and any other step gives null.  On the reference host `parse(0, "Laptop")` is
`"laptop"` and `parse(1, "X200")` is `"X200"`. -/
theorem parseResponse_eq_parseSpec :
    (∀ (h : Host) (step : Nat) (text : JSString),
        parseResponse h step text = parseSpec h step text)
      ∧ (∀ (h : Host) (step : Nat) (text : JSString),
          h.toLowerCase text = js "no" ∨ h.toLowerCase text = js "none" →
            parseResponse h step text = none)
      ∧ (∀ (h : Host) (text : JSString),
          h.toLowerCase text ≠ js "no" → h.toLowerCase text ≠ js "none" →
            parseResponse h 0 text = some (h.toLowerCase text)
              ∧ parseResponse h 1 text = some text
              ∧ ∀ step, 2 ≤ step → parseResponse h step text = none)
      ∧ parseResponse refHost 0 (js "Laptop") = some (js "laptop")
      ∧ parseResponse refHost 1 (js "X200") = some (js "X200") := by
  refine ⟨?_, ?_, ?_, by decide, by decide⟩
  · intro h step text
    unfold parseResponse parseSpec
    by_cases hno : h.toLowerCase text = js "no"
    · simp [hno]
    · by_cases hnone : h.toLowerCase text = js "none"
      · simp [hnone]
      · simp only [hno, hnone, or_self, if_false, List.mem_cons, List.mem_singleton,
          List.not_mem_nil, or_false]
        match step with
        | 0 => simp
        | 1 => simp
        | n + 2 => simp
  · intro h step text hskip
    unfold parseResponse
    rw [if_pos (Or.symm hskip)]
  · intro h text hno hnone
    have hcond : ¬ (h.toLowerCase text = js "none" ∨ h.toLowerCase text = js "no") := by
      intro hc
      rcases hc with hc | hc
      · exact hnone hc
      · exact hno hc
    refine ⟨?_, ?_, ?_⟩
    · unfold parseResponse; rw [if_neg hcond]
    · unfold parseResponse; rw [if_neg hcond]
    · intro step hstep
      unfold parseResponse
      rw [if_neg hcond]
      match step, hstep with
      | n + 2, _ => rfl

/-- C3: starting from the default flow state, after two non-empty answers the
query handed to `fetchData` (and logged by it) is the non-null values among
`parseResponse(0, a1)` and `parseResponse(1, a2)`, in that order, joined by a
single space; the first answer sends no query.  The host is assumed to
lower-case a non-empty string to a non-empty string. -/
theorem query_after_two_answers (h : Host) (net1 net2 : Network) (st : AppState)
    (a1 a2 : JSString) (hfs : st.flowState = defaultFlowState) (ha1 : a1 ≠ []) (ha2 : a2 ≠ [])
    (hlow : ∀ s : JSString, s ≠ [] → h.toLowerCase s ≠ []) :
    (handleSendMessage h net1 (setInput a1 st)).console = st.console
      ∧ (handleSendMessage h net2
            (setInput a2 (useEffect (handleSendMessage h net1 (setInput a1 st))))).console
          = st.console ++ [List.intercalate (js " ")
              ([parseResponse h 0 a1, parseResponse h 1 a2].filterMap id)] := by
  have hstep : (setInput a1 st).flowState.step = 0 := by simp [setInput, hfs, defaultFlowState]
  have hfirst := handleSendMessage_first h net1 (setInput a1 st) ha1 hstep
  have hc1 : (handleSendMessage h net1 (setInput a1 st)).console = st.console := by
    rw [hfirst]; rfl
  refine ⟨hc1, ?_⟩
  have hin2 : (setInput a2 (useEffect (handleSendMessage h net1 (setInput a1 st)))).input ≠ [] :=
    ha2
  have hfs2 : (setInput a2 (useEffect (handleSendMessage h net1 (setInput a1 st)))).flowState
      = { defaultFlowState with type := parseResponse h 0 a1, step := 1 } := by
    show (useEffect _).flowState = _
    rw [useEffect_flowState, hfirst]
    show ({ (setInput a1 st).flowState with type := _, step := 1 } : FlowState) = _
    simp [setInput, hfs]
  have hcon2 : (setInput a2 (useEffect (handleSendMessage h net1 (setInput a1 st)))).console
      = st.console := by
    show (useEffect _).console = _
    rw [← hc1]
    unfold useEffect
    split <;> rfl
  have hsecond := (handleSendMessage_second h net2 _ hin2 (by rw [hfs2])).2.2
  rw [hsecond, hcon2, hfs2]
  show st.console ++ [join (js " ") (filterBoolean [parseResponse h 0 a1, parseResponse h 1 a2])]
    = _
  rw [filterBoolean_eq_filterMap, join_eq_intercalate]
  intro s hs
  simp only [List.mem_cons, List.mem_singleton, List.not_mem_nil, or_false] at hs
  rcases hs with hs | hs
  · have : s = h.toLowerCase a1 := by
      unfold parseResponse at hs
      split at hs
      · exact absurd hs (by simp)
      · simpa using hs
    rw [this]; exact hlow a1 ha1
  · have : s = a2 := by
      unfold parseResponse at hs
      split at hs
      · exact absurd hs (by simp)
      · simpa using hs
    rw [this]; exact ha2

/-- With answers "Laptop" and "no" the query is "laptop"; with both answers
skipped it is the empty string. -/
theorem query_after_two_answers_witness :
    (handleSendMessage refHost (fun _ => FetchReply.rejected)
        (setInput (js "no") (useEffect (handleSendMessage refHost (fun _ => FetchReply.rejected)
          (setInput (js "Laptop") initialState))))).console = [js "laptop"]
      ∧ (handleSendMessage refHost (fun _ => FetchReply.rejected)
          (setInput (js "None") (useEffect (handleSendMessage refHost
            (fun _ => FetchReply.rejected) (setInput (js "NO") initialState))))).console
        = [js ""] :=
  ⟨(query_after_two_answers refHost (fun _ => FetchReply.rejected)
      (fun _ => FetchReply.rejected) initialState (js "Laptop") (js "no") rfl (by decide)
      (by decide) Ref.toLowerCase_ne_nil).2.trans (by decide),
   (query_after_two_answers refHost (fun _ => FetchReply.rejected)
      (fun _ => FetchReply.rejected) initialState (js "NO") (js "None") rfl (by decide)
      (by decide) Ref.toLowerCase_ne_nil).2.trans (by decide)⟩

/-- C5 (as stated, refuted): a stored entry cut off in the middle is not
parseable, and the initializer throws a `SyntaxError` instead of returning the
default flow state. -/
theorem initialFlowState_throws :
    JSON.parse (js "\x7b\"step\":1,") = none
      ∧ initialFlowState (some (js "\x7b\"step\":1,")) = Except.error JSError.syntaxError := by
  constructor <;> rfl

/-- C5 (amended): the initializer returns the parsed value when the stored
entry is parseable JSON, returns the default flow state when the entry is
absent or is the empty string, and throws a `SyntaxError` when the entry is
non-empty and not parseable. -/
theorem initialFlowState_cases (text : JSString) (v : JVal) :
    (JSON.parse text = some v → initialFlowState (some text) = Except.ok v)
      ∧ initialFlowState none = Except.ok defaultFlowState.toJVal
      ∧ initialFlowState (some []) = Except.ok defaultFlowState.toJVal
      ∧ (text ≠ [] → JSON.parse text = none →
          initialFlowState (some text) = Except.error JSError.syntaxError) := by
  refine ⟨?_, rfl, rfl, ?_⟩
  · intro hp
    have hne : text ≠ [] := by
      intro he
      rw [he, JSON.parse_nil] at hp
      exact absurd hp (by simp)
    simp [initialFlowState, hne, hp]
  · intro hne hp
    simp [initialFlowState, hne, hp]

/-- C6: writing a flow state with `JSON.stringify` and loading the text with
the initializer returns the same object, for every step, type and model, and
no other flow state loads to that object; in particular the entry written for
`{step: 1, type: "laptop", model: null}` loads to that structure; and after
every completed run of the handler on a non-empty answer, loading the stored
entry gives the flow state in memory. -/
theorem flowState_save_reload (fs : FlowState) :
    initialFlowState (some (JSON.stringify fs)) = Except.ok fs.toJVal
      ∧ (∀ gs : FlowState,
          initialFlowState (some (JSON.stringify fs)) = Except.ok gs.toJVal → gs = fs)
      ∧ initialFlowState (some (JSON.stringify
            { step := 1, type := some (js "laptop"), model := none }))
          = Except.ok (JVal.obj [(js "step", JVal.num 1), (js "type", JVal.str (js "laptop")),
              (js "model", JVal.null)])
      ∧ ∀ (h : Host) (net : Network) (st : AppState), st.input ≠ [] →
          initialFlowState (handleSendMessage h net st).storage
            = Except.ok (handleSendMessage h net st).flowState.toJVal := by
  have key : ∀ gs : FlowState,
      initialFlowState (some (JSON.stringify gs)) = Except.ok gs.toJVal := by
    intro gs
    have hne : JSON.stringify gs ≠ [] := by
      intro he
      have := JSON.two_le_length_stringify gs
      rw [he] at this
      simp at this
    simp [initialFlowState, hne, JSON.parse_stringify]
  refine ⟨key fs, ?_, ?_, ?_⟩
  · intro gs hgs
    rw [key] at hgs
    exact (FlowState.toJVal_injective fs gs (Except.ok.inj hgs)).symm
  · rw [key]
    simp [FlowState.toJVal, JVal.ofNullable]
  · intro h net st hin
    by_cases h0 : st.flowState.step = 0
    · rw [handleSendMessage_first h net st hin h0]
      exact key _
    · obtain ⟨hf, hs⟩ := handleSendMessage_later h net st hin (by omega)
      rw [hf, hs]
      rfl

/-- C8: on the empty list `sendProductsSequentially` appends exactly the one
bot message "No products found for your query.", removes the stored
`flowState` entry, schedules no timer, and changes nothing else. -/
theorem sendProductsSequentially_nil (h : Host) (st : AppState) :
    (sendProductsSequentially h [] st).messages
        = st.messages ++
          [{ text := .plain (js "No products found for your query."), isUser := false }]
      ∧ (sendProductsSequentially h [] st).storage = none
      ∧ (sendProductsSequentially h [] st).timers = st.timers
      ∧ (sendProductsSequentially h [] st).flowState = st.flowState
      ∧ (sendProductsSequentially h [] st).input = st.input
      ∧ (sendProductsSequentially h [] st).console = st.console := by
  have hnil : sendProductsSequentially h [] st =
      { st with messages := st.messages ++ [noProductsMessage], storage := none } := by
    simp [sendProductsSequentially]
  rw [hnil]
  exact ⟨rfl, rfl, rfl, rfl, rfl, rfl⟩

/-- C9: `formatPrice` returns "N/A" when the parsed price is `NaN`, and the US
dollar rendering of the parsed price otherwise; on the reference host "abc"
gives "N/A" and "9.99" gives "$9.99". -/
theorem formatPrice_spec (h : Host) (price : Price) :
    ((isNaN (h.parseFloat price) = true ∧ formatPrice h price = js "N/A")
        ∨ (isNaN (h.parseFloat price) = false
            ∧ formatPrice h price = h.formatUSD (h.parseFloat price)))
      ∧ formatPrice refHost (.str (js "abc")) = js "N/A"
      ∧ formatPrice refHost (.str (js "9.99")) = js "$9.99" := by
  refine ⟨?_, by decide, by decide⟩
  cases hnan : isNaN (h.parseFloat price) with
  | false => right; simp [formatPrice, hnan]
  | true => left; simp [formatPrice, hnan]

/-- C10: `fetchData` always returns a list: the parsed body as it is when the
request resolves with a JSON body, and exactly the single record
`{name: 'Error', price: 'N/A', link: ''}` when `fetch` rejects or the body is
not JSON; each call logs the query once. -/
theorem fetchData_total (net : Network) (query : JSString) (console : List JSString) :
    (∀ body, net { storeName := js "soriana", query := query } = .resolved (some body) →
        (fetchData net query console).1 = body)
      ∧ (net { storeName := js "soriana", query := query } = .rejected →
          (fetchData net query console).1
            = [{ name := js "Error", price := .str (js "N/A"), link := [] }])
      ∧ (net { storeName := js "soriana", query := query } = .resolved none →
          (fetchData net query console).1
            = [{ name := js "Error", price := .str (js "N/A"), link := [] }])
      ∧ (fetchData net query console).2 = console ++ [query] := by
  refine ⟨?_, ?_, ?_, ?_⟩
  · intro body hb; simp [fetchData, hb]
  · intro hb; simp [fetchData, hb]; rfl
  · intro hb; simp [fetchData, hb]; rfl
  · unfold fetchData
    split <;> rfl


end PriceComparator
